import Mathlib

/-
Verification of the room-synchronization client store of the map_adviser
repository (file useRoomStore.ts, types in types/index.ts).

Modelling conventions:
- JS numbers are modelled as Int (no claim depends on floating-point
  arithmetic: coordinates, headings and timestamps are only stored and
  forwarded, never computed with).
- The JS Map<string, RoomMember> is modelled as an insertion-ordered
  association list with the Map.set / Map.get / Map.delete semantics.
- A WebSocket handle (ws : WebSocket | null) and an interval handle
  (heartbeatInterval : Timeout | null) are modelled as Bool flags telling
  whether the handle is present; no claim inspects the handle itself.
- An inbound frame is either a successfully parsed message or a frame
  whose JSON.parse fails (RawMsg.malformed); the try/catch of
  _handleMessage maps the latter to the unchanged state.
-/

namespace MapAdviser

/-- JSON scalar values appearing in outbound frames built by
JSON.stringify in useRoomStore.ts. -/
inductive JValue where
  | jstr (s : String)
  | jnum (n : Int)
  | jnull
deriving DecidableEq, Repr

/-- An outbound JSON object frame: ordered key/value pairs as written in
the object literal passed to JSON.stringify. -/
abbrev JsonFrame := List (String × JValue)

/-- MemberLocation from types/index.ts: lat, lon, optional heading,
optional accuracy, updated_at. The optional-and-nullable TS fields
(heading?: number | null) are modelled as Option Int, serialized as
JSON null when absent. -/
structure MemberLocation where
  lat : Int
  lon : Int
  heading : Option Int
  accuracy : Option Int
  updated_at : Int
deriving DecidableEq, Repr

/-- RoomMember from types/index.ts. -/
structure RoomMember where
  id : String
  nickname : String
  color : String
  is_host : Bool
  location : Option MemberLocation
deriving DecidableEq, Repr

/-- RoomState from types/index.ts (Room plus your_id / your_color); the
optional chat_messages field is not read by any claim-relevant code and
is omitted. -/
structure RoomStateData where
  code : String
  name : String
  created_at : Int
  members : List RoomMember
  member_count : Nat
  your_id : String
  your_color : String
deriving DecidableEq, Repr

/-- The members field of the store: a JS Map<string, RoomMember> as an
insertion-ordered association list. -/
abbrev MemberMap := List (String × RoomMember)

/-- JS Map.get: the value at key k, or none. -/
def mapGet (m : MemberMap) (k : String) : Option RoomMember :=
  match m with
  | [] => none
  | (k1, v) :: rest => if k1 = k then some v else mapGet rest k

/-- JS Map.set: replace in place when the key exists, append otherwise. -/
def mapSet (m : MemberMap) (k : String) (v : RoomMember) : MemberMap :=
  match m with
  | [] => [(k, v)]
  | (k1, v1) :: rest => if k1 = k then (k, v) :: rest else (k1, v1) :: mapSet rest k v

/-- JS Map.delete: remove the entry with key k, keeping the order of the
remaining entries. -/
def mapDelete (m : MemberMap) (k : String) : MemberMap :=
  match m with
  | [] => []
  | (k1, v1) :: rest => if k1 = k then rest else (k1, v1) :: mapDelete rest k

/-- The keys of the member map, in order. -/
def keysOf (m : MemberMap) : List String := m.map Prod.fst

/-- Number of entries whose member has is_host = true. -/
def hostCount (m : MemberMap) : Nat := (m.filter (fun p => p.2.is_host)).length

/-- The room_state handler builds a fresh Map and inserts every member of
the snapshot keyed by its id (roomState.members.forEach(...)). -/
def buildMap (ms : List RoomMember) : MemberMap :=
  ms.foldl (fun acc m => mapSet acc m.id m) []

/-- The state fields of the zustand room store (useRoomStore.ts). -/
structure Store where
  currentRoom : Option RoomStateData
  members : MemberMap
  myId : Option String
  myColor : Option String
  myLocation : Option MemberLocation
  isConnected : Bool
  isConnecting : Bool
  error : Option String
  ws : Bool
  heartbeatInterval : Bool
deriving DecidableEq, Repr

/-- The initial state object passed to create(...). -/
def initStore : Store :=
  { currentRoom := none, members := [], myId := none, myColor := none,
    myLocation := none, isConnected := false, isConnecting := false,
    error := none, ws := false, heartbeatInterval := false }

/-- A parsed inbound WebSocket message, one constructor per type tag that
_handleMessage switches on, carrying exactly the payload fields the
handler destructures; Msg.other covers every tag outside the handled set
(heartbeat_ack, room_chat_message, agent_typing, ...), for which the
switch statement falls through without touching the state. -/
inductive Msg where
  | room_state (rs : RoomStateData)
  | member_joined (member : RoomMember) (member_count : Nat)
  | member_left (member_id : String) (nickname : String) (member_count : Nat)
  | location_update (member_id : String) (location : MemberLocation)
  | host_changed (new_host_id : String)
  | error_msg (message : String)
  | other (tag : String)
deriving DecidableEq, Repr

/-- An inbound frame before parsing: either parses to a Msg or JSON.parse
throws (malformed). -/
inductive RawMsg where
  | malformed
  | ok (msg : Msg)
deriving DecidableEq, Repr

/-- The tags handled by the switch in _handleMessage, in source order. -/
def handledTags : List String :=
  ["room_state", "member_joined", "member_left", "location_update",
   "host_changed", "error"]

/-- The switch body of _handleMessage, translated case by case from
useRoomStore.ts lines 207-287. -/
def handleMsg (s : Store) (m : Msg) : Store :=
  match m with
  | Msg.room_state rs =>
      { s with currentRoom := some rs,
               members := buildMap rs.members,
               myId := some rs.your_id,
               myColor := some rs.your_color }
  | Msg.member_joined member cnt =>
      { s with members := mapSet s.members member.id member,
               currentRoom := s.currentRoom.map (fun r => { r with member_count := cnt }) }
  | Msg.member_left mid _nick cnt =>
      { s with members := mapDelete s.members mid,
               currentRoom := s.currentRoom.map (fun r => { r with member_count := cnt }) }
  | Msg.location_update mid loc =>
      { s with members :=
          match mapGet s.members mid with
          | some member => mapSet s.members mid { member with location := some loc }
          | none => s.members }
  | Msg.host_changed nh =>
      { s with members := s.members.map (fun p => (p.1, { p.2 with is_host := p.1 == nh })) }
  | Msg.error_msg message => { s with error := some message }
  | Msg.other _ => s

/-- _handleMessage: JSON.parse inside try/catch, then the switch; a parse
failure is caught and leaves the state unchanged. -/
def handleRaw (s : Store) (raw : RawMsg) : Store :=
  match raw with
  | RawMsg.malformed => s
  | RawMsg.ok m => handleMsg s m

/-- Processing a sequence of parsed messages in order. -/
def processAll (s : Store) (msgs : List Msg) : Store :=
  msgs.foldl handleMsg s

/-- The interval constant passed to setInterval in _startHeartbeat
(25000 ms). -/
def heartbeatPeriodMs : Nat := 25000

/-- The frame JSON.stringify({ type: "heartbeat" }) sent on each tick. -/
def heartbeatFrame : JsonFrame := [("type", JValue.jstr "heartbeat")]

/-- Effect of _stopHeartbeat on the store: clearInterval when a handle is
present and set heartbeatInterval to null. -/
def stopHeartbeatStore (s : Store) : Store := { s with heartbeatInterval := false }

/-- Effect of _startHeartbeat on the store: stop any running interval,
then register a new one firing every heartbeatPeriodMs. -/
def startHeartbeatStore (s : Store) : Store :=
  { stopHeartbeatStore s with heartbeatInterval := true }

/-- The body of the setInterval callback in _startHeartbeat: read ws and
isConnected from the store and send the heartbeat frame only when a
socket exists and isConnected is true. -/
def heartbeatTick (s : Store) : Option JsonFrame :=
  if s.ws && s.isConnected then some heartbeatFrame else none

/-- A timer tick of the heartbeat interval: the callback only runs while
an interval handle is registered (after clearInterval the timer never
fires again). -/
def timerFire (s : Store) : Option JsonFrame :=
  if s.heartbeatInterval then heartbeatTick s else none

/-- leaveRoom: stop the heartbeat, close the socket, and reset the store
fields listed in its set(...) call. -/
def leaveRoomStore (s : Store) : Store :=
  { stopHeartbeatStore s with
    ws := false, currentRoom := none, members := [], myId := none,
    myColor := none, myLocation := none, isConnected := false, error := none }

/-- The ws.onclose handler body inside joinRoom: stop the heartbeat,
reset the fields listed in its set(...) call (note: myLocation is not
among them), then set the error to "Room not found" when the close code
is the distinguished 4004. -/
def handleCloseStore (s : Store) (code : Int) : Store :=
  let s1 := stopHeartbeatStore s
  let s2 := { s1 with ws := false, isConnected := false, isConnecting := false,
                      currentRoom := none, members := [], myId := none, myColor := none }
  if code = 4004 then { s2 with error := some "Room not found" } else s2

/-- The argument of updateMyLocation: Omit<MemberLocation, updated_at>. -/
structure LocationInput where
  lat : Int
  lon : Int
  heading : Option Int
  accuracy : Option Int
deriving DecidableEq, Repr

/-- The fullLocation object built inside updateMyLocation: the input
spread plus updated_at taken from the local clock (Date.now() / 1000,
passed here as the opaque clock value now). -/
def fullLocation (location : LocationInput) (now : Int) : MemberLocation :=
  { lat := location.lat, lon := location.lon, heading := location.heading,
    accuracy := location.accuracy, updated_at := now }

/-- JSON serialization of an optional numeric field. -/
def jopt (o : Option Int) : JValue :=
  match o with
  | some n => JValue.jnum n
  | none => JValue.jnull

/-- The object literal passed to JSON.stringify in the ws.send call of
updateMyLocation: type, lat, lon, heading, accuracy, in source order. -/
def locationFrame (location : LocationInput) : JsonFrame :=
  [("type", JValue.jstr "location"),
   ("lat", JValue.jnum location.lat),
   ("lon", JValue.jnum location.lon),
   ("heading", jopt location.heading),
   ("accuracy", jopt location.accuracy)]

/-- updateMyLocation: build fullLocation, store it as myLocation, mirror
it into the own entry of the members map when present, and send the
location frame when a socket exists and isConnected is true. Returns the
new store and the frame sent, if any. -/
def updateMyLocation (s : Store) (location : LocationInput) (now : Int) :
    Store × Option JsonFrame :=
  let full := fullLocation location now
  let s1 := { s with myLocation := some full }
  let s2 :=
    match s1.myId with
    | some myId =>
        match mapGet s1.members myId with
        | some me => { s1 with members := mapSet s1.members myId { me with location := some full } }
        | none => s1
    | none => s1
  let out := if s2.ws && s2.isConnected then some (locationFrame location) else none
  (s2, out)

/-- JS String.prototype.toUpperCase restricted to the basic latin range,
as room codes are short ASCII identifiers; modelled by String.toUpper. -/
def jsToUpperCase (s : String) : String := s.toUpper

/-- The WebSocket URL template of joinRoom:
base + "/ws/room/" + code.toUpperCase() + "?nickname=" + enc(nickname),
where base is WS_BASE_URL (environment dependent) and enc is
encodeURIComponent (an injective JS builtin, taken as a parameter). -/
def joinWsUrl (enc : String → String) (base code nickname : String) : String :=
  base ++ "/ws/room/" ++ jsToUpperCase code ++ "?nickname=" ++ enc nickname

/-- The events a WebSocket can deliver to the handlers installed by
joinRoom, in delivery order. -/
inductive WSEvent where
  | opened
  | message (raw : RawMsg)
  | socketError
  | closed (code : Int)
deriving DecidableEq, Repr

/-- The state of one joinRoom connection attempt: the store plus the
resolution value of the promise returned by joinRoom (none while still
pending). -/
structure Attempt where
  store : Store
  resolved : Option Bool
deriving DecidableEq, Repr

/-- JS promise resolution: only the first resolve call takes effect. -/
def resolveOnce (a : Attempt) (b : Bool) : Attempt :=
  match a.resolved with
  | some _ => a
  | none => { a with resolved := some b }

/-- Whether an inbound frame parses to a message of type room_state (the
check data.type === room_state done in ws.onmessage). -/
def isRoomStateRaw (raw : RawMsg) : Bool :=
  match raw with
  | RawMsg.ok (Msg.room_state _) => true
  | _ => false

/-- Whether an event is the delivery of a room_state message. -/
def isRoomStateEvt (e : WSEvent) : Bool :=
  match e with
  | WSEvent.message raw => isRoomStateRaw raw
  | _ => false

/-- One step of the event handlers installed by joinRoom:
opened runs ws.onopen (mark connected, start the heartbeat);
message runs ws.onmessage (_handleMessage, then resolve true on the
first room_state);
socketError runs ws.onerror (record an error message, modelled by the
fallback text of the handler since no claim reads it, resolve false);
closed runs ws.onclose (tear down, set "Room not found" on code 4004,
resolve false). -/
def attemptStep (a : Attempt) (e : WSEvent) : Attempt :=
  match e with
  | WSEvent.opened =>
      let s1 := { a.store with ws := true, isConnected := true, isConnecting := false }
      { a with store := startHeartbeatStore s1 }
  | WSEvent.message raw =>
      let a1 := { a with store := handleRaw a.store raw }
      if isRoomStateRaw raw then resolveOnce a1 true else a1
  | WSEvent.socketError =>
      resolveOnce
        { a with store := { a.store with error := some "Connection error", isConnecting := false } }
        false
  | WSEvent.closed code =>
      resolveOnce { a with store := handleCloseStore a.store code } false

/-- The synchronous prefix of joinRoom before any event fires: leaveRoom
when a socket already exists, set isConnecting and clear the error, then
store the fresh socket handle. -/
def joinStart (s : Store) : Attempt :=
  let s0 := if s.ws then leaveRoomStore s else s
  let s1 := { s0 with isConnecting := true, error := none }
  { store := { s1 with ws := true }, resolved := none }

/-- A whole joinRoom connection attempt: the synchronous prefix followed
by the delivered socket events in order. -/
def runAttempt (s : Store) (events : List WSEvent) : Attempt :=
  events.foldl attemptStep (joinStart s)

/-- At most one host, and exactly one when the map is non-empty. -/
def oneHostB (m : MemberMap) : Bool := m.isEmpty || hostCount m == 1

/-- Modelled from the spec: the room coordinator (whose code is not in
src/) constrains which messages it can send to a client whose store
mirrors its Member Directory. room_state snapshots a directory with
exactly one host when non-empty; member_joined carries a fresh member id
and host = true iff the directory was empty (addMember); member_left for
the current host is always preceded by host_changed, so the departing
member is no longer flagged host when its member_left arrives;
host_changed names a member of the room. -/
def wfServerMsg (s : Store) (m : Msg) : Bool :=
  match m with
  | Msg.room_state rs => oneHostB (buildMap rs.members)
  | Msg.member_joined member _ =>
      (mapGet s.members member.id).isNone && (member.is_host == s.members.isEmpty)
  | Msg.member_left mid _ _ =>
      match mapGet s.members mid with
      | some member => !member.is_host
      | none => true
  | Msg.host_changed nh => (mapGet s.members nh).isSome
  | Msg.location_update _ _ => true
  | Msg.error_msg _ => true
  | Msg.other _ => true

/-- Modelled from the spec: a sequence of server messages is well formed
when each message is well formed for the client state reached by
processing the messages before it. -/
def wfTrace (s : Store) (msgs : List Msg) : Bool :=
  match msgs with
  | [] => true
  | m :: rest => wfServerMsg s m && wfTrace (handleMsg s m) rest

/-- Modelled from the spec: a join or leave event on the coordinator-side
Member Directory (the Member Directory code is not in src/). -/
inductive ServerEvt where
  | join (member : RoomMember)
  | leave (mid : String)
deriving DecidableEq, Repr

/-- Modelled from the spec: addMember appends the new member to the
directory, removeMember deletes the member with the given id. -/
def dirStep (dir : List RoomMember) (e : ServerEvt) : List RoomMember :=
  match e with
  | ServerEvt.join member => dir ++ [member]
  | ServerEvt.leave mid => dir.filter (fun m => m.id != mid)

/-- Modelled from the spec: the broadcast emitted for one directory
event; the member_count field is the actual directory size right after
the event is applied. -/
def serverMsg (dir : List RoomMember) (e : ServerEvt) : Msg :=
  match e with
  | ServerEvt.join member => Msg.member_joined member (dirStep dir e).length
  | ServerEvt.leave mid =>
      Msg.member_left mid
        (((dir.find? (fun m => m.id == mid)).map RoomMember.nickname).getD "")
        (dirStep dir e).length

/-- Modelled from the spec: the message sequence a coordinator emits for
a sequence of directory events. -/
def serverMsgs (dir : List RoomMember) (evts : List ServerEvt) : List Msg :=
  match evts with
  | [] => []
  | e :: rest => serverMsg dir e :: serverMsgs (dirStep dir e) rest

/-- Modelled from the spec: joining members get an id that is unique
within the room lifetime (fresh for the directory), and member_left is
emitted only for a member actually in the directory. -/
def wfServerEvts (dir : List RoomMember) (evts : List ServerEvt) : Bool :=
  match evts with
  | [] => true
  | ServerEvt.join member :: rest =>
      dir.all (fun m => m.id != member.id) && wfServerEvts (dirStep dir (ServerEvt.join member)) rest
  | ServerEvt.leave mid :: rest =>
      dir.any (fun m => m.id == mid) && wfServerEvts (dirStep dir (ServerEvt.leave mid)) rest

/-- Distinct map keys (a JS Map never holds two entries with one key)
together with the one-host property on non-empty maps. -/
def StoreInv (s : Store) : Prop :=
  (keysOf s.members).Nodup ∧ (s.members ≠ [] → hostCount s.members = 1)

/-- Correspondence between the coordinator Member Directory and the
client store: the member map keys mirror the directory ids in order, the
ids are distinct, and the stored member_count is the directory size. -/
def DirInv (dir : List RoomMember) (s : Store) : Prop :=
  keysOf s.members = dir.map RoomMember.id ∧
  (dir.map RoomMember.id).Nodup ∧
  Option.map RoomStateData.member_count s.currentRoom = some dir.length

/-- Example host member for concrete instantiations. -/
def exMemberA : RoomMember :=
  { id := "a", nickname := "Ann", color := "red", is_host := true, location := none }

/-- Example non-host member for concrete instantiations. -/
def exMemberB : RoomMember :=
  { id := "b", nickname := "Bea", color := "blue", is_host := false, location := none }

/-- Example room snapshot for concrete instantiations: two members, the
first being host, as seen by the second. -/
def exRoomState : RoomStateData :=
  { code := "TRIP", name := "Trip Room", created_at := 0,
    members := [exMemberA, exMemberB], member_count := 2,
    your_id := "b", your_color := "blue" }

/-- Example store: the state right after processing the initial
room_state snapshot exRoomState. -/
def exStore : Store := handleMsg initStore (Msg.room_state exRoomState)

/-- Example location payload for concrete instantiations. -/
def exLoc : MemberLocation :=
  { lat := 1, lon := 2, heading := some 3, accuracy := some 4, updated_at := 7 }

/-- Example location input (no updated_at) for concrete instantiations. -/
def exInput : LocationInput :=
  { lat := 10, lon := 20, heading := some 30, accuracy := none }

/-! Lemmas about the Map model. -/

theorem mapGet_mapSet_self (m : MemberMap) (k : String) (v : RoomMember) :
    mapGet (mapSet m k v) k = some v := by
  induction m with
  | nil => simp [mapSet, mapGet]
  | cons p rest ih =>
      obtain ⟨k1, v1⟩ := p
      by_cases h : k1 = k
      · simp [mapSet, mapGet, h]
      · simp [mapSet, mapGet, h, ih]

theorem mapGet_eq_none_iff (m : MemberMap) (k : String) :
    mapGet m k = none ↔ k ∉ keysOf m := by
  induction m with
  | nil => simp [mapGet, keysOf]
  | cons p rest ih =>
      obtain ⟨k1, v1⟩ := p
      by_cases h : k1 = k
      · simp [mapGet, keysOf, h]
      · simp [mapGet, keysOf, h, ih]
        intro hk
        exact fun hkk => h hkk.symm

theorem mapGet_isSome_iff (m : MemberMap) (k : String) :
    (mapGet m k).isSome = true ↔ k ∈ keysOf m := by
  rw [Option.isSome_iff_ne_none]
  constructor
  · intro h
    by_contra hk
    exact h ((mapGet_eq_none_iff m k).mpr hk)
  · intro h hn
    exact ((mapGet_eq_none_iff m k).mp hn) h

theorem mapSet_of_get_none (m : MemberMap) (k : String) (v : RoomMember)
    (h : mapGet m k = none) : mapSet m k v = m ++ [(k, v)] := by
  induction m with
  | nil => simp [mapSet]
  | cons p rest ih =>
      obtain ⟨k1, v1⟩ := p
      by_cases hk : k1 = k
      · simp [mapGet, hk] at h
      · simp [mapGet, hk] at h
        simp [mapSet, hk, ih h]

theorem keysOf_append (a b : MemberMap) : keysOf (a ++ b) = keysOf a ++ keysOf b := by
  simp [keysOf]

theorem keysOf_mapSet_of_get_some (m : MemberMap) (k : String) (v w : RoomMember)
    (h : mapGet m k = some w) : keysOf (mapSet m k v) = keysOf m := by
  induction m with
  | nil => simp [mapGet] at h
  | cons p rest ih =>
      obtain ⟨k1, v1⟩ := p
      by_cases hk : k1 = k
      · simp [mapSet, keysOf, hk]
      · simp [mapGet, hk] at h
        simp [mapSet, keysOf, hk]
        simpa [keysOf] using ih h

theorem hostCount_cons (k : String) (v : RoomMember) (m : MemberMap) :
    hostCount ((k, v) :: m) = (if v.is_host then 1 else 0) + hostCount m := by
  by_cases h : v.is_host
  · simp [hostCount, List.filter, h]
    omega
  · simp [hostCount, List.filter, h]

theorem hostCount_append (a b : MemberMap) :
    hostCount (a ++ b) = hostCount a + hostCount b := by
  simp [hostCount, List.filter_append]

theorem hostCount_mapSet_of_get_some (m : MemberMap) (k : String) (v w : RoomMember)
    (h : mapGet m k = some w) (hh : v.is_host = w.is_host) :
    hostCount (mapSet m k v) = hostCount m := by
  induction m with
  | nil => simp [mapGet] at h
  | cons p rest ih =>
      obtain ⟨k1, v1⟩ := p
      by_cases hk : k1 = k
      · simp [mapGet, hk] at h
        subst h
        simp [mapSet, hk, hostCount_cons, hh]
      · simp [mapGet, hk] at h
        simp [mapSet, hk, hostCount_cons, ih h]

theorem mapDelete_of_get_none (m : MemberMap) (k : String)
    (h : mapGet m k = none) : mapDelete m k = m := by
  induction m with
  | nil => simp [mapDelete]
  | cons p rest ih =>
      obtain ⟨k1, v1⟩ := p
      by_cases hk : k1 = k
      · simp [mapGet, hk] at h
      · simp [mapGet, hk] at h
        simp [mapDelete, hk, ih h]

theorem hostCount_mapDelete_of_not_host (m : MemberMap) (k : String) (w : RoomMember)
    (h : mapGet m k = some w) (hw : w.is_host = false) :
    hostCount (mapDelete m k) = hostCount m := by
  induction m with
  | nil => simp [mapGet] at h
  | cons p rest ih =>
      obtain ⟨k1, v1⟩ := p
      by_cases hk : k1 = k
      · simp [mapGet, hk] at h
        subst h
        simp [mapDelete, hk, hostCount_cons, hw]
      · simp [mapGet, hk] at h
        simp [mapDelete, hk, hostCount_cons, ih h]

theorem keysOf_mapDelete (m : MemberMap) (k : String) :
    keysOf (mapDelete m k) = (keysOf m).erase k := by
  induction m with
  | nil => simp [mapDelete, keysOf]
  | cons p rest ih =>
      obtain ⟨k1, v1⟩ := p
      by_cases hk : k1 = k
      · simp [mapDelete, keysOf, hk, List.erase_cons]
      · simp [mapDelete, keysOf, hk, List.erase_cons]
        simpa [keysOf] using ih

theorem keysOf_hostUpd (m : MemberMap) (nh : String) :
    keysOf (m.map (fun p => (p.1, { p.2 with is_host := p.1 == nh }))) = keysOf m := by
  simp [keysOf, List.map_map]

theorem hostCount_hostUpd (m : MemberMap) (nh : String) :
    hostCount (m.map (fun p => (p.1, { p.2 with is_host := p.1 == nh }))) =
      (keysOf m).count nh := by
  induction m with
  | nil => rfl
  | cons p rest ih =>
      obtain ⟨k1, v1⟩ := p
      have ih2 : hostCount (List.map (fun p => (p.1, { p.2 with is_host := p.1 == nh })) rest) =
          List.count nh (List.map Prod.fst rest) := by simpa [keysOf] using ih
      simp only [List.map_cons, hostCount_cons, keysOf, List.count_cons]
      by_cases h : k1 = nh
      · simp [h, ih2]
        omega
      · simp [h, ih2]

theorem keysOf_buildMap_aux (ms : List RoomMember) (acc : MemberMap)
    (h : (keysOf acc ++ ms.map RoomMember.id).Nodup) :
    keysOf (ms.foldl (fun a m => mapSet a m.id m) acc) = keysOf acc ++ ms.map RoomMember.id := by
  induction ms generalizing acc with
  | nil => simp
  | cons m rest ih =>
      have hfresh : m.id ∉ keysOf acc := by
        intro hmem
        rcases List.nodup_append.mp h with ⟨_, _, hdisj⟩
        exact hdisj hmem (by simp)
      have hget : mapGet acc m.id = none := (mapGet_eq_none_iff acc m.id).mpr hfresh
      have hset := mapSet_of_get_none acc m.id m hget
      simp only [List.foldl_cons, hset]
      have h2 : (keysOf (acc ++ [(m.id, m)]) ++ rest.map RoomMember.id).Nodup := by
        simpa [keysOf_append, keysOf] using h
      rw [ih _ h2]
      simp [keysOf_append, keysOf]

theorem keysOf_buildMap (ms : List RoomMember)
    (h : (ms.map RoomMember.id).Nodup) :
    keysOf (buildMap ms) = ms.map RoomMember.id := by
  have := keysOf_buildMap_aux ms [] (by simpa [keysOf] using h)
  simpa [buildMap, keysOf] using this

theorem keysOf_buildMap_nodup (ms : List RoomMember) :
    (keysOf (buildMap ms)).Nodup := by
  have general : ∀ (l : List RoomMember) (acc : MemberMap), (keysOf acc).Nodup →
      (keysOf (l.foldl (fun a m => mapSet a m.id m) acc)).Nodup := by
    intro l
    induction l with
    | nil => intro acc hacc; simpa using hacc
    | cons m rest ih =>
        intro acc hacc
        simp only [List.foldl_cons]
        apply ih
        cases hget : mapGet acc m.id with
        | none =>
            rw [mapSet_of_get_none acc m.id m hget]
            have hfresh : m.id ∉ keysOf acc := (mapGet_eq_none_iff acc m.id).mp hget
            rw [keysOf_append, List.nodup_append]
            refine ⟨hacc, by simp [keysOf], ?_⟩
            intro a ha hb
            simp [keysOf] at hb
            subst hb
            exact hfresh ha
        | some w =>
            rw [keysOf_mapSet_of_get_some acc m.id m w hget]
            exact hacc
  exact general ms [] (by simp [keysOf])

/-! The one-host invariant (claim C1). -/

theorem storeInv_handleMsg (s : Store) (m : Msg)
    (hs : StoreInv s) (hwf : wfServerMsg s m = true) : StoreInv (handleMsg s m) := by
  obtain ⟨hnd, hone⟩ := hs
  cases m with
  | room_state rs =>
      refine ⟨?_, ?_⟩
      · simpa [handleMsg] using keysOf_buildMap_nodup rs.members
      · intro hne
        simp only [handleMsg] at hne ⊢
        simp [wfServerMsg, oneHostB] at hwf
        rcases hwf with hemp | hcount
        · exact absurd hemp hne
        · exact hcount
  | member_joined member cnt =>
      simp only [wfServerMsg, Bool.and_eq_true, Option.isNone_iff_eq_none, beq_iff_eq] at hwf
      obtain ⟨hget, hhost⟩ := hwf
      have hset := mapSet_of_get_none s.members member.id member hget
      have hfresh : member.id ∉ keysOf s.members := (mapGet_eq_none_iff _ _).mp hget
      refine ⟨?_, ?_⟩
      · simp only [handleMsg, hset]
        rw [keysOf_append, List.nodup_append]
        refine ⟨hnd, by simp [keysOf], ?_⟩
        intro a ha hb
        simp [keysOf] at hb
        subst hb
        exact hfresh ha
      · intro _
        simp only [handleMsg, hset]
        rw [hostCount_append]
        by_cases hemp : s.members = []
        · have hh : member.is_host = true := by rw [hhost, hemp]; rfl
          simp [hemp, hostCount, hh]
        · have hh : member.is_host = false := by
            rw [hhost]
            cases hx : s.members with
            | nil => exact absurd hx hemp
            | cons a b => rfl
          have h1 := hone hemp
          have h0 : hostCount [(member.id, member)] = 0 := by
            simp [hostCount, hh]
          omega
  | member_left mid nick cnt =>
      cases hget : mapGet s.members mid with
      | none =>
          have hdel := mapDelete_of_get_none s.members mid hget
          exact ⟨by simpa [handleMsg, hdel] using hnd,
                 by simpa [handleMsg, hdel] using hone⟩
      | some member =>
          simp only [wfServerMsg, hget, Bool.not_eq_eq_eq_not, Bool.not_true] at hwf
          refine ⟨?_, ?_⟩
          · simp only [handleMsg]
            rw [keysOf_mapDelete]
            exact hnd.erase mid
          · intro hne
            simp only [handleMsg] at hne ⊢
            have hcount := hostCount_mapDelete_of_not_host s.members mid member hget hwf
            rw [hcount]
            apply hone
            intro hemp
            rw [hemp] at hget
            simp [mapGet] at hget
  | location_update mid loc =>
      cases hget : mapGet s.members mid with
      | none =>
          exact ⟨by simpa [handleMsg, hget] using hnd,
                 by simpa [handleMsg, hget] using hone⟩
      | some member =>
          refine ⟨?_, ?_⟩
          · simp only [handleMsg, hget]
            rw [keysOf_mapSet_of_get_some s.members mid _ member hget]
            exact hnd
          · intro _
            simp only [handleMsg, hget]
            rw [hostCount_mapSet_of_get_some s.members mid
                  { member with location := some loc } member hget rfl]
            apply hone
            intro hemp
            rw [hemp] at hget
            simp [mapGet] at hget
  | host_changed nh =>
      simp only [wfServerMsg] at hwf
      have hmem : nh ∈ keysOf s.members := (mapGet_isSome_iff _ _).mp hwf
      refine ⟨?_, ?_⟩
      · simp only [handleMsg]
        rw [keysOf_hostUpd]
        exact hnd
      · intro _
        simp only [handleMsg]
        rw [hostCount_hostUpd]
        exact List.count_eq_one_of_mem hnd hmem
  | error_msg message =>
      exact ⟨by simpa [handleMsg] using hnd, by simpa [handleMsg] using hone⟩
  | other tag =>
      exact ⟨by simpa [handleMsg] using hnd, by simpa [handleMsg] using hone⟩

theorem storeInv_processAll (s : Store) (msgs : List Msg)
    (hs : StoreInv s) (hwf : wfTrace s msgs = true) : StoreInv (processAll s msgs) := by
  induction msgs generalizing s with
  | nil => simpa [processAll] using hs
  | cons m rest ih =>
      simp only [wfTrace, Bool.and_eq_true] at hwf
      have h1 := storeInv_handleMsg s m hs hwf.1
      have h2 := ih (handleMsg s m) h1 hwf.2
      simpa [processAll] using h2

/-- C1: for every reachable state of the client room store, that is any
state produced by processing a well-formed sequence of server messages
after an initial room_state, whenever the members map is non-empty
exactly one member has is_host = true, including immediately after
processing the messages for a host leaving (host_changed followed by
member_left). -/
theorem one_host_in_reachable_states (rs : RoomStateData) (msgs : List Msg)
    (hwf : wfTrace initStore (Msg.room_state rs :: msgs) = true) :
    (processAll initStore (Msg.room_state rs :: msgs)).members ≠ [] →
      hostCount (processAll initStore (Msg.room_state rs :: msgs)).members = 1 := by
  have hinv : StoreInv initStore := ⟨by simp [initStore, keysOf], by simp [initStore]⟩
  exact (storeInv_processAll initStore _ hinv hwf).2

/-- Witness for C1 at a concrete trace in which the host leaves: the
server sends host_changed (to member b) followed by member_left (for
member a); the trace is well formed and the final one-member map has
exactly one host. -/
theorem one_host_in_reachable_states_witness :
    wfTrace initStore
        (Msg.room_state exRoomState ::
          [Msg.host_changed "b", Msg.member_left "a" "Ann" 1]) = true ∧
      hostCount (processAll initStore
        (Msg.room_state exRoomState ::
          [Msg.host_changed "b", Msg.member_left "a" "Ann" 1])).members = 1 :=
  ⟨by decide,
   one_host_in_reachable_states exRoomState
     [Msg.host_changed "b", Msg.member_left "a" "Ann" 1] (by decide) (by decide)⟩

/-! The member-count invariant (claim C2). -/

theorem dirIds_filter (dir : List RoomMember) (mid : String) :
    (dir.filter (fun m => m.id != mid)).map RoomMember.id =
      (dir.map RoomMember.id).filter (fun x => x != mid) := by
  induction dir with
  | nil => rfl
  | cons m rest ih =>
      by_cases h : m.id = mid
      · have hb : (m.id != mid) = false := by simp [h]
        simp [List.filter, hb, ih]
      · have hb : (m.id != mid) = true := by simp [bne_iff_ne]; exact h
        simp [List.filter, hb, ih]

theorem nodup_filter_ne_eq_erase (l : List String) (k : String) (h : l.Nodup) :
    l.filter (fun x => x != k) = l.erase k := by
  induction l with
  | nil => rfl
  | cons a rest ih =>
      by_cases hk : a = k
      · subst hk
        have : ∀ x ∈ rest, (x != a) = true := by
          intro x hx
          have : x ≠ a := by
            intro hxa
            subst hxa
            exact (List.nodup_cons.mp h).1 hx
          simpa using this
        simp [List.filter, List.erase_cons, List.filter_eq_self.mpr this]
      · have hb : (a != k) = true := by simp [bne_iff_ne]; exact hk
        have hbeq : (a == k) = false := by simp [hk]
        simp [List.filter, hb, hbeq, List.erase_cons, ih (List.nodup_cons.mp h).2]

theorem dirInv_step (dir : List RoomMember) (e : ServerEvt) (s : Store)
    (hinv : DirInv dir s)
    (hwf : match e with
           | ServerEvt.join member => dir.all (fun m => m.id != member.id) = true
           | ServerEvt.leave mid => dir.any (fun m => m.id == mid) = true) :
    DirInv (dirStep dir e) (handleMsg s (serverMsg dir e)) := by
  obtain ⟨hkeys, hnd, hcnt⟩ := hinv
  cases e with
  | join member =>
      simp only at hwf
      have hfreshDir : member.id ∉ dir.map RoomMember.id := by
        intro hmem
        rcases List.mem_map.mp hmem with ⟨m, hm, hid⟩
        have := List.all_eq_true.mp hwf m hm
        simp [hid] at this
      have hfresh : member.id ∉ keysOf s.members := by rw [hkeys]; exact hfreshDir
      have hget : mapGet s.members member.id = none := (mapGet_eq_none_iff _ _).mpr hfresh
      have hset := mapSet_of_get_none s.members member.id member hget
      refine ⟨?_, ?_, ?_⟩
      · simp only [serverMsg, handleMsg, hset, dirStep]
        rw [keysOf_append, hkeys]
        simp [keysOf]
      · simp only [dirStep]
        simp only [List.map_append, List.map_cons, List.map_nil]
        exact List.Nodup.append hnd (List.nodup_singleton _)
          (by intro a ha hb; simp at hb; subst hb; exact hfreshDir ha)
      · simp only [serverMsg, handleMsg, dirStep]
        cases hr : s.currentRoom with
        | none => rw [hr] at hcnt; simp at hcnt
        | some r => simp [hr]
  | leave mid =>
      simp only at hwf
      have hmemDir : mid ∈ dir.map RoomMember.id := by
        rcases List.any_eq_true.mp hwf with ⟨m, hm, hid⟩
        exact List.mem_map.mpr ⟨m, hm, by simpa using hid⟩
      refine ⟨?_, ?_, ?_⟩
      · simp only [serverMsg, handleMsg, dirStep]
        rw [keysOf_mapDelete, hkeys, dirIds_filter, nodup_filter_ne_eq_erase _ _ hnd]
      · simp only [dirStep]
        rw [dirIds_filter, nodup_filter_ne_eq_erase _ _ hnd]
        exact hnd.erase mid
      · simp only [serverMsg, handleMsg, dirStep]
        cases hr : s.currentRoom with
        | none => rw [hr] at hcnt; simp at hcnt
        | some r => simp [hr]

theorem dirInv_run (evts : List ServerEvt) (dir : List RoomMember) (s : Store)
    (hinv : DirInv dir s) (hwf : wfServerEvts dir evts = true) :
    DirInv (evts.foldl dirStep dir) (processAll s (serverMsgs dir evts)) := by
  induction evts generalizing dir s with
  | nil => simpa [processAll, serverMsgs] using hinv
  | cons e rest ih =>
      cases e with
      | join member =>
          simp only [wfServerEvts, Bool.and_eq_true] at hwf
          have h1 := dirInv_step dir (ServerEvt.join member) s hinv (by simpa using hwf.1)
          have h2 := ih (dirStep dir (ServerEvt.join member)) _ h1 hwf.2
          simpa [processAll, serverMsgs, List.foldl_cons] using h2
      | leave mid =>
          simp only [wfServerEvts, Bool.and_eq_true] at hwf
          have h1 := dirInv_step dir (ServerEvt.leave mid) s hinv (by simpa using hwf.1)
          have h2 := ih (dirStep dir (ServerEvt.leave mid)) _ h1 hwf.2
          simpa [processAll, serverMsgs, List.foldl_cons] using h2

/-- C2: for every sequence of member_joined and member_left messages a
conforming coordinator emits after an initial room_state, the member
count stored in currentRoom.member_count equals the actual number of
entries in the members map of the client. -/
theorem member_count_matches_map_size (rs : RoomStateData) (evts : List ServerEvt)
    (hnd : (rs.members.map RoomMember.id).Nodup)
    (hcnt : rs.member_count = rs.members.length)
    (hwf : wfServerEvts rs.members evts = true) :
    Option.map RoomStateData.member_count
        (processAll (handleMsg initStore (Msg.room_state rs))
          (serverMsgs rs.members evts)).currentRoom =
      some (processAll (handleMsg initStore (Msg.room_state rs))
          (serverMsgs rs.members evts)).members.length := by
  have hinit : DirInv rs.members (handleMsg initStore (Msg.room_state rs)) := by
    refine ⟨?_, hnd, ?_⟩
    · simpa [handleMsg] using keysOf_buildMap rs.members hnd
    · simp [handleMsg, hcnt]
  have hrun := dirInv_run evts rs.members _ hinit hwf
  obtain ⟨hkeys, _, hc⟩ := hrun
  rw [hc]
  congr 1
  have hlen : (keysOf (processAll (handleMsg initStore (Msg.room_state rs))
      (serverMsgs rs.members evts)).members).length =
      ((evts.foldl dirStep rs.members).map RoomMember.id).length := by rw [hkeys]
  simp [keysOf] at hlen
  omega

/-- Witness for C2 at a concrete trace: a third member joins, then the
original host leaves; the final stored member_count is 2 and the map has
2 entries. -/
theorem member_count_matches_map_size_witness :
    (exRoomState.members.map RoomMember.id).Nodup ∧
    exRoomState.member_count = exRoomState.members.length ∧
    wfServerEvts exRoomState.members
      [ServerEvt.join { id := "c", nickname := "Cal", color := "green",
                        is_host := false, location := none },
       ServerEvt.leave "a"] = true ∧
    Option.map RoomStateData.member_count
        (processAll (handleMsg initStore (Msg.room_state exRoomState))
          (serverMsgs exRoomState.members
            [ServerEvt.join { id := "c", nickname := "Cal", color := "green",
                              is_host := false, location := none },
             ServerEvt.leave "a"])).currentRoom =
      some (processAll (handleMsg initStore (Msg.room_state exRoomState))
          (serverMsgs exRoomState.members
            [ServerEvt.join { id := "c", nickname := "Cal", color := "green",
                              is_host := false, location := none },
             ServerEvt.leave "a"])).members.length :=
  ⟨by decide, by decide, by decide,
   member_count_matches_map_size exRoomState
     [ServerEvt.join { id := "c", nickname := "Cal", color := "green",
                       is_host := false, location := none },
      ServerEvt.leave "a"] (by decide) (by decide) (by decide)⟩

/-! Location replacement (claims C3 and C9). -/

/-- C3: location replacement is wholesale and atomic: processing a
location_update for member mid replaces the stored location of mid with
exactly the location object carried by that message, and updateMyLocation
replaces the own location (both in myLocation and in the own members
entry) with exactly the input plus the locally assigned updated_at; the
stored location never combines fields of two different updates. -/
theorem location_replaced_wholesale
    (s : Store) (mid : String) (loc : MemberLocation) (member : RoomMember)
    (myid : String) (me : RoomMember) (location : LocationInput) (now : Int)
    (hget : mapGet s.members mid = some member)
    (hid : s.myId = some myid) (hme : mapGet s.members myid = some me) :
    mapGet (handleMsg s (Msg.location_update mid loc)).members mid =
      some { member with location := some loc } ∧
    (updateMyLocation s location now).1.myLocation = some (fullLocation location now) ∧
    mapGet (updateMyLocation s location now).1.members myid =
      some { me with location := some (fullLocation location now) } := by
  refine ⟨?_, ?_, ?_⟩
  · simp only [handleMsg, hget]
    exact mapGet_mapSet_self s.members mid { member with location := some loc }
  · simp only [updateMyLocation, hid, hme]
  · simp only [updateMyLocation, hid, hme]
    exact mapGet_mapSet_self s.members myid { me with location := some (fullLocation location now) }

/-- Witness for C3 at the concrete two-member store: a location_update
for member a and an updateMyLocation as member b. -/
theorem location_replaced_wholesale_witness :
    mapGet exStore.members "a" = some exMemberA ∧
    exStore.myId = some "b" ∧
    mapGet exStore.members "b" = some exMemberB ∧
    (mapGet (handleMsg exStore (Msg.location_update "a" exLoc)).members "a" =
        some { exMemberA with location := some exLoc } ∧
      (updateMyLocation exStore exInput 5).1.myLocation = some (fullLocation exInput 5) ∧
      mapGet (updateMyLocation exStore exInput 5).1.members "b" =
        some { exMemberB with location := some (fullLocation exInput 5) }) :=
  ⟨by decide, by decide, by decide,
   location_replaced_wholesale exStore "a" exLoc exMemberA "b" exMemberB exInput 5
     (by decide) (by decide) (by decide)⟩

/-- C9: processing a location_update whose member_id is not present in
the members map leaves the entire store state unchanged. -/
theorem location_update_unknown_noop (s : Store) (mid : String) (loc : MemberLocation)
    (hget : mapGet s.members mid = none) :
    handleMsg s (Msg.location_update mid loc) = s := by
  simp [handleMsg, hget]

/-- Witness for C9: a location_update for an id not in the example store
leaves it unchanged. -/
theorem location_update_unknown_noop_witness :
    mapGet exStore.members "zz" = none ∧
    handleMsg exStore (Msg.location_update "zz" exLoc) = exStore :=
  ⟨by decide, location_update_unknown_noop exStore "zz" exLoc (by decide)⟩

/-! Totality and conservativity of the handler (claim C10). -/

/-- C10: the client message handler is total and conservative: an inbound
frame whose payload fails JSON parsing is caught and changes nothing, and
a message whose type tag lies outside the handled set, such as
heartbeat_ack, room_chat_message or agent_typing, falls through the
switch and leaves the store state entirely unchanged. -/
theorem handler_total_conservative :
    (∀ s : Store, handleRaw s RawMsg.malformed = s) ∧
    (∀ (s : Store) (tag : String), handleMsg s (Msg.other tag) = s) ∧
    "heartbeat_ack" ∉ handledTags ∧
    "room_chat_message" ∉ handledTags ∧
    "agent_typing" ∉ handledTags :=
  ⟨fun _ => rfl, fun _ _ => rfl, by decide, by decide, by decide⟩

/-! Teardown on close and on leaveRoom (claim C8). -/

/-- C8 counterexample: running the onclose handler (here with the normal
close code 1000) on a store whose myLocation is set does not reset
myLocation to null; the close teardown omits myLocation from its
set(...) call. -/
theorem close_keeps_myLocation_counterexample :
    (handleCloseStore { exStore with myLocation := some exLoc } 1000).myLocation =
        some exLoc ∧
      (handleCloseStore { exStore with myLocation := some exLoc } 1000).myLocation ≠
        none := by decide

/-- C8 amended: leaveRoom resets currentRoom, members, myId, myColor,
myLocation and isConnected; the onclose handler resets currentRoom,
members, myId, myColor and isConnected but leaves myLocation unchanged. -/
theorem teardown_on_close_and_leave (s : Store) (code : Int) :
    (leaveRoomStore s).currentRoom = none ∧
    (leaveRoomStore s).members = [] ∧
    (leaveRoomStore s).myId = none ∧
    (leaveRoomStore s).myColor = none ∧
    (leaveRoomStore s).myLocation = none ∧
    (leaveRoomStore s).isConnected = false ∧
    (handleCloseStore s code).currentRoom = none ∧
    (handleCloseStore s code).members = [] ∧
    (handleCloseStore s code).myId = none ∧
    (handleCloseStore s code).myColor = none ∧
    (handleCloseStore s code).isConnected = false ∧
    (handleCloseStore s code).myLocation = s.myLocation := by
  unfold leaveRoomStore handleCloseStore stopHeartbeatStore
  by_cases h : code = 4004 <;> simp [h]

/-! Heartbeat behavior (claim C5). -/

/-- C5: the heartbeat interval constant is 25000 ms; a tick of the
interval callback sends the heartbeat frame exactly when a socket exists
and isConnected is true; after _stopHeartbeat, which leaveRoom and the
onclose handler both invoke, the interval handle is cleared and a timer
fire sends nothing. -/
theorem heartbeat_behavior :
    heartbeatPeriodMs = 25000 ∧
    (∀ s : Store, s.ws = true → s.isConnected = true →
      heartbeatTick s = some heartbeatFrame) ∧
    (∀ s : Store, s.ws = false → heartbeatTick s = none) ∧
    (∀ s : Store, s.isConnected = false → heartbeatTick s = none) ∧
    (∀ s : Store, (stopHeartbeatStore s).heartbeatInterval = false ∧
      timerFire (stopHeartbeatStore s) = none) ∧
    (∀ s : Store, (leaveRoomStore s).heartbeatInterval = false ∧
      timerFire (leaveRoomStore s) = none) ∧
    (∀ (s : Store) (code : Int), (handleCloseStore s code).heartbeatInterval = false ∧
      timerFire (handleCloseStore s code) = none) := by
  refine ⟨rfl, ?_, ?_, ?_, ?_, ?_, ?_⟩
  · intro s hws hconn
    simp [heartbeatTick, hws, hconn]
  · intro s hws
    simp [heartbeatTick, hws]
  · intro s hconn
    simp [heartbeatTick, hconn]
  · intro s
    exact ⟨rfl, rfl⟩
  · intro s
    exact ⟨rfl, rfl⟩
  · intro s code
    constructor
    · unfold handleCloseStore stopHeartbeatStore
      by_cases h : code = 4004 <;> simp [h]
    · unfold timerFire handleCloseStore stopHeartbeatStore
      by_cases h : code = 4004 <;> simp [h]

/-- Witness for C5: on a connected store with a live socket the tick
sends the heartbeat frame; on the same store with the socket cleared it
sends nothing. -/
theorem heartbeat_behavior_witness :
    ({ exStore with ws := true, isConnected := true } : Store).ws = true ∧
    heartbeatTick { exStore with ws := true, isConnected := true } = some heartbeatFrame ∧
    heartbeatTick { exStore with ws := false } = none :=
  ⟨by decide,
   heartbeat_behavior.2.1 { exStore with ws := true, isConnected := true }
     (by decide) (by decide),
   heartbeat_behavior.2.2.1 { exStore with ws := false } (by decide)⟩

/-! The outbound location frame (claim C6). -/

theorem updateMyLocation_snd (s : Store) (location : LocationInput) (now : Int) :
    (updateMyLocation s location now).2 =
      if s.ws && s.isConnected then some (locationFrame location) else none := by
  unfold updateMyLocation
  cases hid : s.myId with
  | none => rfl
  | some myid =>
      cases hme : mapGet s.members myid with
      | none => simp [hid, hme]
      | some me => simp [hid, hme]

/-- C6: the outbound location message of updateMyLocation carries exactly
the fields type, lat, lon, heading, accuracy, with the values taken from
the update being sent, and no updated_at or timestamp field; the frame
does not depend on the local clock value, whose updated_at the client
only stores locally. -/
theorem location_frame_no_timestamp
    (s : Store) (location : LocationInput) (now now2 : Int)
    (hws : s.ws = true) (hconn : s.isConnected = true) :
    (updateMyLocation s location now).2 = some (locationFrame location) ∧
    (locationFrame location).map Prod.fst =
      ["type", "lat", "lon", "heading", "accuracy"] ∧
    "updated_at" ∉ (locationFrame location).map Prod.fst ∧
    "timestamp" ∉ (locationFrame location).map Prod.fst ∧
    (updateMyLocation s location now).2 = (updateMyLocation s location now2).2 := by
  have hkeys : (locationFrame location).map Prod.fst =
      ["type", "lat", "lon", "heading", "accuracy"] := by simp [locationFrame]
  refine ⟨?_, hkeys, ?_, ?_, ?_⟩
  · rw [updateMyLocation_snd]
    simp [hws, hconn]
  · rw [hkeys]
    decide
  · rw [hkeys]
    decide
  · rw [updateMyLocation_snd, updateMyLocation_snd]

/-- Witness for C6 on a connected store: the frame sent for the example
input, with two different clock values. -/
theorem location_frame_no_timestamp_witness :
    ({ exStore with ws := true, isConnected := true } : Store).ws = true ∧
    (updateMyLocation { exStore with ws := true, isConnected := true } exInput 5).2 =
      some (locationFrame exInput) ∧
    (updateMyLocation { exStore with ws := true, isConnected := true } exInput 5).2 =
      (updateMyLocation { exStore with ws := true, isConnected := true } exInput 99).2 :=
  ⟨by decide,
   (location_frame_no_timestamp { exStore with ws := true, isConnected := true }
     exInput 5 99 (by decide) (by decide)).1,
   (location_frame_no_timestamp { exStore with ws := true, isConnected := true }
     exInput 5 99 (by decide) (by decide)).2.2.2.2⟩

/-! Case-insensitive room codes (claim C7). -/

theorem toNat_ofNat_valid (n : Nat) (h : n.isValidChar) : (Char.ofNat n).toNat = n := by
  rw [Char.ofNat, dif_pos h]
  simp [Char.ofNatAux, Char.toNat, UInt32.toNat]

theorem char_toUpper_idem (c : Char) : c.toUpper.toUpper = c.toUpper := by
  show Char.toUpper c.toUpper = c.toUpper
  unfold Char.toUpper
  by_cases h : c.toNat ≥ 97 ∧ c.toNat ≤ 122
  · rw [if_pos h]
    have hvalid : (c.toNat - 32).isValidChar := Or.inl (by omega)
    have hval : (Char.ofNat (c.toNat - 32)).toNat = c.toNat - 32 :=
      toNat_ofNat_valid _ hvalid
    rw [if_neg]
    rw [hval]
    omega
  · rw [if_neg h, if_neg h]

theorem jsToUpperCase_idem (s : String) :
    jsToUpperCase (jsToUpperCase s) = jsToUpperCase s := by
  unfold jsToUpperCase String.toUpper
  rw [String.map_eq, String.map_eq]
  simp only [List.map_map]
  congr 1
  apply List.map_congr_left
  intro c _
  exact char_toUpper_idem c

/-- C7: room codes are treated case-insensitively by the client: joinRoom
builds the connection URL from the canonical upper-cased form of the
code, so the code and its upper-cased form yield the same room URL, for
any base URL and any encoding of the nickname. -/
theorem join_url_case_insensitive (enc : String → String) (base code nickname : String) :
    joinWsUrl enc base (jsToUpperCase code) nickname =
      joinWsUrl enc base code nickname := by
  unfold joinWsUrl
  rw [jsToUpperCase_idem]

/-! joinRoom resolution (claim C4). -/

theorem resolveOnce_false_not_true (a : Attempt)
    (ha : a.resolved ≠ some true) : (resolveOnce a false).resolved ≠ some true := by
  unfold resolveOnce
  cases hr : a.resolved with
  | some b => exact ha
  | none => simp

theorem attemptStep_not_true (a : Attempt) (e : WSEvent)
    (ha : a.resolved ≠ some true) (he : isRoomStateEvt e = false) :
    (attemptStep a e).resolved ≠ some true := by
  cases e with
  | opened => simpa [attemptStep] using ha
  | message raw =>
      simp only [isRoomStateEvt] at he
      simp only [attemptStep, he, Bool.false_eq_true, if_false]
      simpa using ha
  | socketError => exact resolveOnce_false_not_true _ ha
  | closed code => exact resolveOnce_false_not_true _ ha

theorem run_not_true_aux (events : List WSEvent) (a : Attempt)
    (ha : a.resolved ≠ some true)
    (hall : ∀ e ∈ events, isRoomStateEvt e = false) :
    (events.foldl attemptStep a).resolved ≠ some true := by
  induction events generalizing a with
  | nil => simpa using ha
  | cons e rest ih =>
      simp only [List.foldl_cons]
      exact ih (attemptStep a e)
        (attemptStep_not_true a e ha (hall e (by simp)))
        (fun x hx => hall x (by simp [hx]))

theorem handleCloseStore_4004_error (s : Store) :
    (handleCloseStore s 4004).error = some "Room not found" := by
  unfold handleCloseStore stopHeartbeatStore
  simp

/-- C4: if the socket closes with the distinguished code 4004 before any
room_state message was received, the joinRoom promise resolves false and
the error becomes Room not found; and joinRoom resolves true only upon
receipt of a room_state message, so a room-not-found connection attempt
never reaches the joined state. -/
theorem room_not_found_behavior (s : Store) (pre : List WSEvent)
    (hall : ∀ e ∈ pre, isRoomStateEvt e = false) :
    (runAttempt s (pre ++ [WSEvent.closed 4004])).resolved = some false ∧
    (runAttempt s (pre ++ [WSEvent.closed 4004])).store.error = some "Room not found" ∧
    (∀ events : List WSEvent, (runAttempt s events).resolved = some true →
      ∃ e ∈ events, isRoomStateEvt e = true) := by
  have hjoin : (joinStart s).resolved = none := rfl
  have hpre : (pre.foldl attemptStep (joinStart s)).resolved ≠ some true :=
    run_not_true_aux pre (joinStart s) (by simp [hjoin]) hall
  have hfold : runAttempt s (pre ++ [WSEvent.closed 4004]) =
      attemptStep (pre.foldl attemptStep (joinStart s)) (WSEvent.closed 4004) := by
    unfold runAttempt
    rw [List.foldl_append]
    rfl
  refine ⟨?_, ?_, ?_⟩
  · rw [hfold]
    simp only [attemptStep]
    unfold resolveOnce
    cases hr : (pre.foldl attemptStep (joinStart s)).resolved with
    | none => simp
    | some b =>
        cases b with
        | true => exact absurd hr hpre
        | false => simp [hr]
  · rw [hfold]
    simp only [attemptStep]
    unfold resolveOnce
    cases hr : (pre.foldl attemptStep (joinStart s)).resolved with
    | none => simp [handleCloseStore_4004_error]
    | some b => simp [hr, handleCloseStore_4004_error]
  · intro events htrue
    by_contra hno
    push_neg at hno
    have hall2 : ∀ e ∈ events, isRoomStateEvt e = false := by
      intro e he
      cases hevt : isRoomStateEvt e with
      | false => rfl
      | true => exact absurd hevt (hno e he)
    exact run_not_true_aux events (joinStart s) (by simp [hjoin]) hall2 htrue

/-- Witness for C4: a concrete attempt in which the socket opens, one
malformed frame arrives, and the socket closes with code 4004; the
promise resolves false and the error is Room not found. -/
theorem room_not_found_behavior_witness :
    (∀ e ∈ [WSEvent.opened, WSEvent.message RawMsg.malformed],
        isRoomStateEvt e = false) ∧
    (runAttempt initStore ([WSEvent.opened, WSEvent.message RawMsg.malformed] ++
        [WSEvent.closed 4004])).resolved = some false ∧
    (runAttempt initStore ([WSEvent.opened, WSEvent.message RawMsg.malformed] ++
        [WSEvent.closed 4004])).store.error = some "Room not found" :=
  ⟨by decide,
   (room_not_found_behavior initStore
     [WSEvent.opened, WSEvent.message RawMsg.malformed] (by decide)).1,
   (room_not_found_behavior initStore
     [WSEvent.opened, WSEvent.message RawMsg.malformed] (by decide)).2.1⟩

end MapAdviser
